import Mathlib

/-!
Verification of the SBOM record-merge and document-assembly pipeline
(`sbomnix/sbomdb.py`).

Modelling conventions:
* A pandas cell holding either a missing value (`NaN`) or a string is
  `Cell := Option String` (`none` = `NaN`).
* Cells that may hold an arbitrary JSON value (the metadata loader stores
  raw `pkg.get(...)` results in the frame) are `Option Json`.
* Python functions that can raise on the modelled inputs return `Option`
  (`none` = the call raises).
-/

/-- A decoded JSON value, as returned by `json.loads`. -/
inductive Json where
  | null : Json
  | bool : Bool → Json
  | num : Int → Json
  | str : String → Json
  | arr : List Json → Json
  | obj : List (String × Json) → Json

/-- Python truthiness of a JSON value (`filter(None, ...)`, `if not x`). -/
def Json.truthy : Json → Bool
  | .null => false
  | .bool b => b
  | .num n => n ≠ 0
  | .str s => s ≠ ""
  | .arr l => ¬ l.isEmpty
  | .obj l => ¬ l.isEmpty

/-- Model of `d.get(key, default)` on a decoded JSON object: the value bound to
`key` (decoded dicts have unique keys, so the first binding is the
binding), or `default` when the key is absent. -/
def Json.lookupD (fields : List (String × Json)) (key : String) (default : Json) : Json :=
  match fields.find? (fun kv => kv.1 = key) with
  | some kv => kv.2
  | none => default

/-- The underlying field list when the value is a JSON object; `none`
models the `AttributeError` a `.get`/`.items()` call raises otherwise. -/
def Json.asObj : Json → Option (List (String × Json))
  | .obj fields => some fields
  | _ => none

/-! ## Metadata catalog loader (`_parse_meta_entry`, `_parse_json_metadata`) -/

/-- Model of `_parse_meta_entry(meta, key)`: collect candidate values for `key` from a
field that may be a dict (`[meta.get(key, "")]`), a list
(`[x.get(key, "") if isinstance(x, dict) else x for x in meta]`) or a plain
value (`[meta]`), then drop falsy entries (`list(filter(None, ret))`). -/
def parse_meta_entry (meta : Json) (key : String) : List Json :=
  let ret : List Json :=
    match meta with
    | .obj fields => [Json.lookupD fields key (.str "")]
    | .arr items =>
        items.map (fun x =>
          match x with
          | .obj fields => Json.lookupD fields key (.str "")
          | other => other)
    | other => [other]
  ret.filter Json.truthy

/-- The string payload of a JSON value, when it is one. -/
def Json.asStr : Json → Option String
  | .str s => some s
  | _ => none

/-- Apply a fallible `f` to every element; `none` as soon as one call
fails (the raise propagates out of the loop). -/
def mapOption (f : α → Option β) : List α → Option (List β)
  | [] => some []
  | a :: l =>
    match f a, mapOption f l with
    | some b, some bs => some (b :: bs)
    | _, _ => none

/-- Model of `";".join(xs)`: succeeds only when every element is a string (a non-string
element raises `TypeError`, modelled as `none`). -/
def joinSemicolon (xs : List Json) : Option String :=
  (mapOption Json.asStr xs).map (String.intercalate ";")

/-- One row of the normalized metadata table built by `_parse_json_metadata`.
The `name`/`pname`/`version`/`meta_homepage`/`meta_position` cells hold raw
`pkg.get(...)` results (arbitrary JSON values); the license/maintainer cells
are the `";".join(...)` strings. -/
structure MetaRow where
  nixpkgs : String
  name : Json
  pname : Json
  version : Json
  meta_homepage : Json
  meta_position : Json
  meta_license_short : String
  meta_license_spdxid : String
  meta_maintainers_email : String

/-- The loop body of `_parse_json_metadata` for one top-level entry
`(nixpkg_name, pkg)`. Fails (`none`) when `pkg` or its `meta` value is not a
dict (`AttributeError` on `.get`) or a `";".join` receives a non-string. -/
def parse_entry (nixpkg_name : String) (pkg : Json) : Option MetaRow :=
  match pkg.asObj with
  | none => none
  | some pfields =>
    match (Json.lookupD pfields "meta" (.obj [])).asObj with
    | none => none
    | some mfields =>
      match
        joinSemicolon (parse_meta_entry
          (Json.lookupD mfields "license" (.obj [])) "shortName"),
        joinSemicolon (parse_meta_entry
          (Json.lookupD mfields "license" (.obj [])) "spdxId"),
        joinSemicolon (parse_meta_entry
          (Json.lookupD mfields "maintainers" (.obj [])) "email") with
      | some license_short, some license_spdx, some emails =>
        some
          { nixpkgs := nixpkg_name
            name := Json.lookupD pfields "name" (.str "")
            pname := Json.lookupD pfields "pname" (.str "")
            version := Json.lookupD pfields "version" (.str "")
            meta_homepage := Json.lookupD mfields "homepage" (.str "")
            meta_position := Json.lookupD mfields "position" (.str "")
            meta_license_short := license_short
            meta_license_spdxid := license_spdx
            meta_maintainers_email := emails }
      | _, _, _ => none

/-- Model of `_parse_json_metadata` applied to the decoded JSON value: one output row
per top-level key, in iteration order (the per-column `setcol(...).append`
calls build exactly this table column-wise). Fails when the top-level value
is not a mapping (`.items()` raises) or some entry's processing raises. -/
def parse_json_metadata (json_dict : Json) : Option (List MetaRow) :=
  match json_dict.asObj with
  | none => none
  | some fields => mapOption (fun kv => parse_entry kv.1 kv.2) fields

/-- The state of the metadata file handed to the loader. -/
inductive MetaFile where
  | missing
  | invalidJson
  | decoded : Json → MetaFile

/-- How a failing load surfaces: `ioError` from `open`, `jsonDecodeError`
from `json.loads`, `duckTypeError` for the uncaught `AttributeError` /
`TypeError` raised while walking the decoded value. -/
inductive LoadError where
  | ioError
  | jsonDecodeError
  | duckTypeError
deriving DecidableEq

/-- Modelled from the spec: opening the file and decoding the JSON text are
outside the embedded fragment (`open` raises an IO error when the path does
not exist or is unreadable; `json.loads` raises a decode error when the text
is not valid JSON); a readable, decodable file is its decoded value, which
is then processed by `parse_json_metadata` exactly as in the source. -/
def load_json_metadata : MetaFile → Except LoadError (List MetaRow)
  | .missing => .error .ioError
  | .invalidJson => .error .jsonDecodeError
  | .decoded j =>
    match parse_json_metadata j with
    | some rows => .ok rows
    | none => .error .duckTypeError

/-! ## Component merger (`_generate_sbomdb`) -/

/-- A pandas cell of a string column: `none` is `NaN`. -/
abbrev Cell := Option String

/-- One row of the inventory table produced by `Store.to_dataframe()`
(external collaborator); the columns the pipeline reads. -/
structure InvRow where
  store_path : Cell
  name : Cell
  pname : Cell
  version : Cell
  cpe : Cell
deriving DecidableEq

/-- The metadata-side columns a merged row carries when a metadata table was
supplied. The `name` column is the join key and collapses into the
inventory-side `name`; the overlapping `pname`/`version` columns get the
`_meta` suffix (`suffixes=["", "_meta"]`); cells are `none` (`NaN`) on an
unmatched left row. -/
structure MetaCols where
  nixpkgs : Option String
  pname_meta : Option Json
  version_meta : Option Json
  meta_homepage : Option Json
  meta_position : Option Json
  meta_license_short : Option String
  meta_license_spdxid : Option String
  meta_maintainers_email : Option String

/-- One row of `df_sbomdb`: the inventory columns plus, when a metadata
table was supplied (`meta ≠ none`), the metadata-side columns. -/
structure SbomRow where
  inv : InvRow
  meta : Option MetaCols

/-- The metadata-side columns of a joined row matched to catalog row `m`. -/
def metaColsOf (m : MetaRow) : MetaCols :=
  { nixpkgs := some m.nixpkgs
    pname_meta := some m.pname
    version_meta := some m.version
    meta_homepage := some m.meta_homepage
    meta_position := some m.meta_position
    meta_license_short := some m.meta_license_short
    meta_license_spdxid := some m.meta_license_spdxid
    meta_maintainers_email := some m.meta_maintainers_email }

/-- Metadata-side columns of an unmatched left row: all `NaN`. -/
def nanMetaCols : MetaCols :=
  { nixpkgs := none
    pname_meta := none
    version_meta := none
    meta_homepage := none
    meta_position := none
    meta_license_short := none
    meta_license_spdxid := none
    meta_maintainers_email := none }

/-- Join-key equality of `df_store.name` (a string cell) with `df_meta.name`
(a raw JSON cell): pandas matches equal values; `NaN` matches nothing, and a
non-string catalog value never equals a string. -/
def nameMatches (l : Cell) (m : Json) : Bool :=
  match l, m with
  | some s, .str t => s = t
  | _, _ => false

/-- The joined rows one inventory row contributes to
`df_store.merge(df_meta, how="left", on name)`: one row per matching catalog
row, in catalog order (fan-out), or a single all-`NaN`-suffixed row when
nothing matches. -/
def joinBlock (l : InvRow) (df_meta : List MetaRow) : List SbomRow :=
  match df_meta.filter (fun m => nameMatches l.name m.name) with
  | [] => [⟨l, some nanMetaCols⟩]
  | ms => ms.map (fun m => ⟨l, some (metaColsOf m)⟩)

/-- Model of the row semantics of `df_store.merge(df_meta, how="left",
left_on=["name"], right_on=["name"], suffixes=["", "_meta"])`: left row
order is preserved, each left row fans out to its block of matches. This
describes the join when the metadata table has its columns, i.e. when the
catalog had at least one entry; `merge_with_meta` adds the zero-entry
failure path. -/
def leftJoin (df_store : List InvRow) (df_meta : List MetaRow) : List SbomRow :=
  match df_store with
  | [] => []
  | l :: ls => joinBlock l df_meta ++ leftJoin ls df_meta

/-- Model of `replace(np.nan, "")` on a string cell. -/
def normCell : Cell → Cell
  | none => some ""
  | some s => some s

/-- Model of `replace(np.nan, "")` on a JSON-valued cell. -/
def normJCell : Option Json → Option Json
  | none => some (.str "")
  | some j => some j

/-- Model of `replace(np.nan, "")` on the inventory columns. -/
def normInvRow (r : InvRow) : InvRow :=
  { store_path := normCell r.store_path
    name := normCell r.name
    pname := normCell r.pname
    version := normCell r.version
    cpe := normCell r.cpe }

/-- Model of `replace(np.nan, "")` on the metadata-side columns. -/
def normMetaCols (m : MetaCols) : MetaCols :=
  { nixpkgs := normCell m.nixpkgs
    pname_meta := normJCell m.pname_meta
    version_meta := normJCell m.version_meta
    meta_homepage := normJCell m.meta_homepage
    meta_position := normJCell m.meta_position
    meta_license_short := normCell m.meta_license_short
    meta_license_spdxid := normCell m.meta_license_spdxid
    meta_maintainers_email := normCell m.meta_maintainers_email }

/-- Model of `df_sbomdb.replace(np.nan, "", regex=True)` on one row. -/
def normRow (r : SbomRow) : SbomRow :=
  { inv := normInvRow r.inv, meta := r.meta.map normMetaCols }

/-- Model of `drop_duplicates(subset="store_path", keep="first")`: keep a row iff its
`store_path` cell was not seen on an earlier row. -/
def dropDups (seen : List Cell) : List SbomRow → List SbomRow
  | [] => []
  | r :: rs =>
    if r.inv.store_path ∈ seen then dropDups seen rs
    else r :: dropDups (r.inv.store_path :: seen) rs

/-- The pre-dedup table of `_generate_sbomdb`: the inventory table itself
when no metadata table is supplied (its rows carry no metadata columns),
else the left join. -/
def merged_table (df_store : List InvRow) (meta : Option (List MetaRow)) :
    List SbomRow :=
  match meta with
  | none => df_store.map (fun l => ({ inv := l, meta := none } : SbomRow))
  | some df_meta => leftJoin df_store df_meta

/-- Model of `_generate_sbomdb`: left-join the inventory against the metadata table
when one is supplied, normalize missing values to `""`
(`replace(np.nan, "", regex=True)`), then deduplicate by `store_path`
keeping the first row. -/
def generate_sbomdb (df_store : List InvRow) (meta : Option (List MetaRow)) :
    List SbomRow :=
  dropDups [] ((merged_table df_store meta).map normRow)

/-- Model of the `df_store.merge(df_meta, ...)` call itself, error path
included: the table `_parse_json_metadata` builds for a catalog with zero
entries has ZERO columns (no `setcol(...)` call ever ran, so
`pd.DataFrame({})`), and the merge then raises `KeyError` on the missing
`right_on=["name"]` column — modelled as `none`. With at least one catalog
row the `name` column exists and the join is `leftJoin`. -/
def merge_with_meta (df_store : List InvRow) (df_meta : List MetaRow) :
    Option (List SbomRow) :=
  match df_meta with
  | [] => none
  | _ :: _ => some (leftJoin df_store df_meta)

/-- Model of `_generate_sbomdb` with the join's error path: when a metadata
table is supplied the merge may raise (`merge_with_meta`), producing no
canonical set at all; otherwise normalize and deduplicate as in
`generate_sbomdb` (which describes exactly the non-raising runs, see
`generate_sbomdb_checked_some`). -/
def generate_sbomdb_checked (df_store : List InvRow)
    (meta : Option (List MetaRow)) : Option (List SbomRow) :=
  match meta with
  | none =>
    some (dropDups []
      ((df_store.map (fun l => ({ inv := l, meta := none } : SbomRow))).map
        normRow))
  | some df_meta =>
    (merge_with_meta df_store df_meta).map (fun df_sbomdb =>
      dropDups [] (df_sbomdb.map normRow))

/-! ## Component projector (`_df_row_to_cdx_component` and helpers) -/

/-- A non-`NaN` cell value as `itertuples` attribute access sees it: a
string-column value or a raw JSON value. -/
inductive CellVal where
  | s : String → CellVal
  | j : Json → CellVal

/-- Model of `getattr(row, c)` combined with the `c in row._asdict()` membership
test: `none` = column not in the row, `some none` = cell is `NaN`,
`some (some v)` = cell holds value `v`. -/
def SbomRow.getCol (r : SbomRow) (c : String) : Option (Option CellVal) :=
  if c = "store_path" then some (r.inv.store_path.map CellVal.s)
  else if c = "name" then some (r.inv.name.map CellVal.s)
  else if c = "pname" then some (r.inv.pname.map CellVal.s)
  else if c = "version" then some (r.inv.version.map CellVal.s)
  else if c = "cpe" then some (r.inv.cpe.map CellVal.s)
  else if c = "nixpkgs" then r.meta.map (fun m => m.nixpkgs.map CellVal.s)
  else if c = "pname_meta" then r.meta.map (fun m => m.pname_meta.map CellVal.j)
  else if c = "version_meta" then r.meta.map (fun m => m.version_meta.map CellVal.j)
  else if c = "meta_homepage" then r.meta.map (fun m => m.meta_homepage.map CellVal.j)
  else if c = "meta_position" then r.meta.map (fun m => m.meta_position.map CellVal.j)
  else if c = "meta_license_short" then r.meta.map (fun m => m.meta_license_short.map CellVal.s)
  else if c = "meta_license_spdxid" then r.meta.map (fun m => m.meta_license_spdxid.map CellVal.s)
  else if c = "meta_maintainers_email" then r.meta.map (fun m => m.meta_maintainers_email.map CellVal.s)
  else none

/-- Split a character list at every occurrence of `sep`; the groups, in
order. Always at least one group (splitting the empty list gives `[[]]`). -/
def splitChars (sep : Char) : List Char → List (List Char)
  | [] => [[]]
  | c :: cs =>
    if c = sep then [] :: splitChars sep cs
    else
      match splitChars sep cs with
      | [] => [[c]]
      | g :: gs => (c :: g) :: gs

/-- Python's `s.split(sep)` for the one-character separator the source uses
(`license_str.split(";")`): `"a;b".split(";") == ["a", "b"]`,
`"a;".split(";") == ["a", ""]`, `"".split(";") == [""]`. -/
def pySplit (sep : Char) (s : String) : List String :=
  (splitChars sep s.data).map List.asString

/-- One entry of a component's `licenses` array:
`{"license": {cdx_license_type: license_string}}`. -/
structure LicenseEntry where
  license_type : String
  license_string : String
deriving DecidableEq

/-- Model of `_licenses_entry_from_row(row, column_name, cdx_license_type)`: empty
list when the column is not in the row or its string is falsy, else one
entry per `";"`-split segment. A `NaN` cell (truthy, but no `.split`) and a
truthy non-string JSON cell raise, modelled as `none`; a falsy JSON cell
(e.g. the empty string a `NaN` was normalized to) yields the empty list. -/
def licenses_entry_from_row (row : SbomRow) (column_name : String)
    (cdx_license_type : String) : Option (List LicenseEntry) :=
  match row.getCol column_name with
  | none => some []
  | some none => none
  | some (some (.j v)) => if v.truthy then none else some []
  | some (some (.s license_str)) =>
    if license_str = "" then some []
    else
      some ((pySplit ';' license_str).map (fun license_string =>
        { license_type := cdx_license_type, license_string := license_string }))

/-- Model of `_cdx_component_add_licenses`: read the short-name license column (the
spdxid branch is commented out in the source) and return the value of the
component's optional `licenses` field: `none` = field omitted. The outer
`Option` is the raise-propagation of `licenses_entry_from_row`. -/
def cdx_component_add_licenses (row : SbomRow) :
    Option (Option (List LicenseEntry)) :=
  match licenses_entry_from_row row "meta_license_short" "name" with
  | none => none
  | some [] => some none
  | some licenses => some (some licenses)

/-- A CycloneDX component as `_df_row_to_cdx_component` builds it
(`bom_ref` is the `"bom-ref"` key; `licenses = none` = key omitted). -/
structure CdxComponent where
  type : String
  bom_ref : String
  name : String
  version : String
  purl : String
  cpe : String
  licenses : Option (List LicenseEntry)
deriving DecidableEq

/-- Modelled from the spec: the external `packageurl` library's rendering of
`str(PackageURL(type="nix", name=pname, version=version))`; the spec fixes
the scheme as `pkg:nix/<name>@<version>`. -/
def purl_string (pname version : String) : String :=
  "pkg:nix/" ++ pname ++ "@" ++ version

/-- Model of `_df_row_to_cdx_component(row)`: project one canonical row. Defined on
rows whose inventory cells hold strings — the shape every canonical row has
after missing-value normalization; a `NaN` read is modelled as `none`. -/
def df_row_to_cdx_component (row : SbomRow) : Option CdxComponent := do
  let store_path ← row.inv.store_path
  let pname ← row.inv.pname
  let version ← row.inv.version
  let cpe ← row.inv.cpe
  let licenses ← cdx_component_add_licenses row
  pure
    { type := "application"
      bom_ref := store_path
      name := pname
      version := version
      purl := purl_string pname version
      cpe := cpe
      licenses := licenses }

/-! ## Assembler (`to_cdx`) -/

/-- The CycloneDX document skeleton `to_cdx` fills in, with the
`metadata.tools` entry flattened to its three fields and
`metadata_component = none` when `metadata` never receives a `component`
key. -/
structure CdxDoc where
  bomFormat : String
  specVersion : String
  version : Nat
  serialNumber : String
  tool_vendor : String
  tool_name : String
  tool_version : String
  metadata_component : Option CdxComponent
  components : List CdxComponent
deriving DecidableEq

/-- Model of `row.store_path == target_path`: the root test of the `to_cdx` loop
(a `NaN` cell never equals a string). -/
def isRootRow (target_path : String) (row : SbomRow) : Bool :=
  row.inv.store_path = some target_path

/-- The row loop of `to_cdx`: project each row; a row whose `store_path`
equals the target path overwrites `metadata.component`, every other row's
component is appended to `components`. -/
def to_cdx_rows (target_path : String) (rows : List SbomRow)
    (mc : Option CdxComponent) (acc : List CdxComponent) :
    Option (Option CdxComponent × List CdxComponent) :=
  match rows with
  | [] => some (mc, acc)
  | row :: rest =>
    match df_row_to_cdx_component row with
    | none => none
    | some component =>
      if isRootRow target_path row then
        to_cdx_rows target_path rest (some component) acc
      else
        to_cdx_rows target_path rest mc (acc ++ [component])

/-- Model of `to_cdx`: assemble the document from the canonical set. The fresh
`uuid.uuid4()` — the only non-deterministic input — is passed in as
`serial`; `target_path` is `self.store.get_target_drv_path()`. -/
def to_cdx (df_sbomdb : List SbomRow) (target_path : String)
    (serial : String) : Option CdxDoc :=
  (to_cdx_rows target_path df_sbomdb none []).map (fun mc_acc =>
    { bomFormat := "CycloneDX"
      specVersion := "1.3"
      version := 1
      serialNumber := "urn:uuid:" ++ serial
      tool_vendor := "TII"
      tool_name := "sbomnix"
      tool_version := "0.1.0"
      metadata_component := mc_acc.1
      components := mc_acc.2 })

/-! ## Derived descriptions and witness data used by the theorems -/

/-- The dedup key test: does row `x` carry `store_path` cell `k`? -/
def keyIs (k : Cell) (x : SbomRow) : Bool :=
  x.inv.store_path = k

/-- The joined row the keep-first dedup retains for an inventory row:
its inventory columns plus the metadata columns of the first catalog row
whose `name` matches (all-`NaN` metadata columns when none matches). -/
def firstMatchRow (l : InvRow) (df_meta : List MetaRow) : SbomRow :=
  match df_meta.find? (fun m => nameMatches l.name m.name) with
  | none => { inv := l, meta := some nanMetaCols }
  | some m => { inv := l, meta := some (metaColsOf m) }

/-- Every inventory cell holds a string (no `NaN` survives). -/
def noNanInv (r : InvRow) : Bool :=
  r.store_path.isSome && r.name.isSome && r.pname.isSome &&
    r.version.isSome && r.cpe.isSome

/-- Every metadata-side cell holds a value (no `NaN` survives). -/
def noNanMetaCols (m : MetaCols) : Bool :=
  m.nixpkgs.isSome && m.pname_meta.isSome && m.version_meta.isSome &&
    m.meta_homepage.isSome && m.meta_position.isSome &&
    m.meta_license_short.isSome && m.meta_license_spdxid.isSome &&
    m.meta_maintainers_email.isSome

/-- No cell of the row — inventory side or, when present, metadata side —
is a missing value. -/
def noNanRow (r : SbomRow) : Bool :=
  noNanInv r.inv &&
    (match r.meta with
     | none => true
     | some m => noNanMetaCols m)

/-- The licenses value prescribed by the spec's words (§4.3: "split on
`;`, and for each NON-EMPTY segment produce a license entry with that
segment under the name sub-key; if no such licenses are found, omit the
licenses field"): stated only to be compared with what the code computes,
never used in a definition translated from the source. -/
def spec_licenses_value (license_str : String) : Option (List LicenseEntry) :=
  match ((pySplit ';' license_str).filter (fun seg => ¬ seg = "")).map
      (fun seg => { license_type := "name", license_string := seg }) with
  | [] => none
  | ls => some ls

/-- Witness rows for the merge claims: two inventory rows sharing a
`store_path`, a catalog with two entries of the same name. -/
def invW1 : InvRow :=
  { store_path := some "p1", name := some "n1", pname := some "x",
    version := some "1", cpe := some "" }

def invW2 : InvRow :=
  { store_path := some "p1", name := some "n2", pname := some "y",
    version := some "2", cpe := some "" }

def metaWA : MetaRow :=
  { nixpkgs := "a", name := .str "n1", pname := .str "x", version := .str "1",
    meta_homepage := .str "ha", meta_position := .str "",
    meta_license_short := "mit", meta_license_spdxid := "MIT",
    meta_maintainers_email := "" }

def metaWB : MetaRow :=
  { nixpkgs := "b", name := .str "n1", pname := .str "x", version := .str "1",
    meta_homepage := .str "hb", meta_position := .str "",
    meta_license_short := "gpl2", meta_license_spdxid := "GPL-2.0",
    meta_maintainers_email := "" }

/-- A catalog row whose joined short-license field ends in `";"` (the loader
produces it from a `shortName` containing a semicolon). -/
def metaCexLic : MetaRow :=
  { nixpkgs := "c", name := .str "n1", pname := .str "x", version := .str "1",
    meta_homepage := .str "", meta_position := .str "",
    meta_license_short := "a;", meta_license_spdxid := "",
    meta_maintainers_email := "" }

/-- A canonical row for the projection claims, no metadata columns. -/
def rowW5 : SbomRow :=
  { inv :=
      { store_path := some "sp", name := some "nm", pname := some "foo",
        version := some "1.2.3", cpe := some "" },
    meta := none }

/-- Its projection. -/
def cdxW5 : CdxComponent :=
  { type := "application", bom_ref := "sp", name := "foo",
    version := "1.2.3", purl := "pkg:nix/foo@1.2.3", cpe := "",
    licenses := none }

/-- Metadata columns whose short-license cell is `"mit;gpl"`. -/
def mcW3 : MetaCols :=
  { nixpkgs := some "a", pname_meta := some (.str "x"),
    version_meta := some (.str "1"), meta_homepage := some (.str ""),
    meta_position := some (.str ""), meta_license_short := some "mit;gpl",
    meta_license_spdxid := some "", meta_maintainers_email := some "" }

/-- A canonical row whose short-license field is `"mit;gpl"`. -/
def rowW3 : SbomRow :=
  { inv := invW1, meta := some mcW3 }

/-- Its projection: two license entries. -/
def cdxW3 : CdxComponent :=
  { type := "application", bom_ref := "p1", name := "x", version := "1",
    purl := "pkg:nix/x@1", cpe := "",
    licenses := some [{ license_type := "name", license_string := "mit" },
                      { license_type := "name", license_string := "gpl" }] }

/-- Three canonical rows for the root-placement witness; only `rowB`'s
`store_path` equals the designated target `"t"`. -/
def rowA : SbomRow :=
  { inv := { store_path := some "pa", name := some "na", pname := some "a",
             version := some "1", cpe := some "" }, meta := none }

def rowB : SbomRow :=
  { inv := { store_path := some "t", name := some "nb", pname := some "b",
             version := some "2", cpe := some "" }, meta := none }

def rowC : SbomRow :=
  { inv := { store_path := some "pc", name := some "nc", pname := some "c",
             version := some "3", cpe := some "" }, meta := none }

/-- A concrete decoded metadata catalog for the loader witness: two
entries, the first with list-shaped license and maintainers, the second a
fully empty object. -/
def entriesW : List (String × Json) :=
  [("pkg1", .obj
      [("name", .str "foo-1.0"),
       ("meta", .obj
          [("license", .arr [.obj [("shortName", .str "mit"),
                                   ("spdxId", .str "MIT")],
                             .str "gpl2"]),
           ("maintainers", .arr [.obj [("email", .str "a@b")]])])]),
   ("pkg2", .obj [])]

/-- The rows the loader produces for `entriesW`. -/
def rowsW : List MetaRow :=
  [{ nixpkgs := "pkg1", name := .str "foo-1.0", pname := .str "",
     version := .str "", meta_homepage := .str "", meta_position := .str "",
     meta_license_short := "mit;gpl2", meta_license_spdxid := "MIT;gpl2",
     meta_maintainers_email := "a@b" },
   { nixpkgs := "pkg2", name := .str "", pname := .str "",
     version := .str "", meta_homepage := .str "", meta_position := .str "",
     meta_license_short := "", meta_license_spdxid := "",
     meta_maintainers_email := "" }]

/-! ## Properties of the dedup step -/

theorem dropDups_sublist (l : List SbomRow) :
    ∀ seen, List.Sublist (dropDups seen l) l := by
  induction l with
  | nil => intro seen; simp [dropDups]
  | cons a rs ih =>
    intro seen
    by_cases h : a.inv.store_path ∈ seen
    · simpa [dropDups, h] using (ih seen).cons a
    · simpa [dropDups, h] using (ih (a.inv.store_path :: seen)).cons₂ a

theorem mem_dropDups_key_not_seen (l : List SbomRow) :
    ∀ (seen : List Cell) (r : SbomRow),
      r ∈ dropDups seen l → r.inv.store_path ∉ seen := by
  induction l with
  | nil => intro seen r h; simp [dropDups] at h
  | cons a rs ih =>
    intro seen r h
    by_cases ha : a.inv.store_path ∈ seen
    · simp only [dropDups, if_pos ha] at h
      exact ih seen r h
    · simp only [dropDups, if_neg ha, List.mem_cons] at h
      rcases h with rfl | h
      · exact ha
      · have hs := ih (a.inv.store_path :: seen) r h
        intro hmem
        exact hs (List.mem_cons_of_mem _ hmem)

theorem dropDups_keys_nodup (l : List SbomRow) :
    ∀ seen, ((dropDups seen l).map (fun r => r.inv.store_path)).Nodup := by
  induction l with
  | nil => intro seen; simp [dropDups]
  | cons a rs ih =>
    intro seen
    by_cases ha : a.inv.store_path ∈ seen
    · simpa [dropDups, ha] using ih seen
    · simp only [dropDups, if_neg ha, List.map_cons, List.nodup_cons]
      refine ⟨fun hmem => ?_, ih _⟩
      rcases List.mem_map.1 hmem with ⟨r, hr, hkey⟩
      exact (mem_dropDups_key_not_seen rs _ r hr) (by simp [hkey])

theorem dropDups_covers (l : List SbomRow) :
    ∀ (seen : List Cell) (x : SbomRow), x ∈ l →
      x.inv.store_path ∈ seen ∨
        ∃ r ∈ dropDups seen l, r.inv.store_path = x.inv.store_path := by
  induction l with
  | nil => intro seen x hx; simp at hx
  | cons a rs ih =>
    intro seen x hx
    by_cases ha : a.inv.store_path ∈ seen
    · rcases List.mem_cons.1 hx with rfl | hx
      · exact Or.inl ha
      · rcases ih seen x hx with h1 | ⟨r, hr, hk⟩
        · exact Or.inl h1
        · exact Or.inr ⟨r, by simp only [dropDups, if_pos ha]; exact hr, hk⟩
    · rcases List.mem_cons.1 hx with rfl | hx
      · exact Or.inr ⟨x, by simp [dropDups, ha], rfl⟩
      · rcases ih (a.inv.store_path :: seen) x hx with h1 | ⟨r, hr, hk⟩
        · rcases List.mem_cons.1 h1 with hk | h1
          · exact Or.inr ⟨a, by simp [dropDups, ha], hk.symm⟩
          · exact Or.inl h1
        · exact Or.inr ⟨r, by simp only [dropDups, if_neg ha]; exact List.mem_cons_of_mem _ hr, hk⟩

theorem dropDups_first (l : List SbomRow) :
    ∀ (seen : List Cell) (r : SbomRow), r ∈ dropDups seen l →
      l.find? (keyIs r.inv.store_path) = some r := by
  induction l with
  | nil => intro seen r h; simp [dropDups] at h
  | cons a rs ih =>
    intro seen r h
    by_cases ha : a.inv.store_path ∈ seen
    · simp only [dropDups, if_pos ha] at h
      have hr := mem_dropDups_key_not_seen rs seen r h
      have hne : ¬ keyIs r.inv.store_path a = true := by
        simp only [keyIs, decide_eq_true_eq]
        intro he
        exact hr (he ▸ ha)
      rw [List.find?_cons_of_neg _ hne]
      exact ih seen r h
    · simp only [dropDups, if_neg ha, List.mem_cons] at h
      rcases h with rfl | h
      · exact List.find?_cons_of_pos _ (by simp [keyIs])
      · have hr := mem_dropDups_key_not_seen rs _ r h
        have hne : ¬ keyIs r.inv.store_path a = true := by
          simp only [keyIs, decide_eq_true_eq]
          intro he
          exact hr (by simp [he])
        rw [List.find?_cons_of_neg _ hne]
        exact ih _ r h

theorem dropDups_find? (k : Cell) (l : List SbomRow) :
    ∀ seen, k ∉ seen →
      (dropDups seen l).find? (keyIs k) = l.find? (keyIs k) := by
  induction l with
  | nil => intro seen _; simp [dropDups]
  | cons a rs ih =>
    intro seen hk
    by_cases ha : a.inv.store_path ∈ seen
    · have hne : ¬ keyIs k a = true := by
        simp only [keyIs, decide_eq_true_eq]
        intro he
        exact hk (he ▸ ha)
      simp only [dropDups, if_pos ha]
      rw [ih seen hk, List.find?_cons_of_neg _ hne]
    · simp only [dropDups, if_neg ha]
      by_cases hak : keyIs k a = true
      · rw [List.find?_cons_of_pos _ hak, List.find?_cons_of_pos _ hak]
      · rw [List.find?_cons_of_neg _ hak, List.find?_cons_of_neg _ hak]
        refine ih _ fun hmem => ?_
        rcases List.mem_cons.1 hmem with rfl | hmem
        · exact hak (by simp [keyIs])
        · exact hk hmem

theorem dropDups_eq_self (l : List SbomRow) :
    ∀ seen, (l.map (fun r => r.inv.store_path)).Nodup →
      (∀ x ∈ l, x.inv.store_path ∉ seen) → dropDups seen l = l := by
  induction l with
  | nil => intro seen _ _; rfl
  | cons a rs ih =>
    intro seen hnd hseen
    have ha : a.inv.store_path ∉ seen := hseen a (List.mem_cons_self a rs)
    simp only [dropDups, if_neg ha]
    simp only [List.map_cons, List.nodup_cons] at hnd
    congr 1
    refine ih _ hnd.2 fun x hx hmem => ?_
    rcases List.mem_cons.1 hmem with hk | hmem
    · exact hnd.1 (List.mem_map.2 ⟨x, hx, hk⟩)
    · exact hseen x (List.mem_cons_of_mem _ hx) hmem

/-! ## Properties of the left join -/

theorem head?_filter_eq_find? (p : α → Bool) (l : List α) :
    (l.filter p).head? = l.find? p := by
  induction l with
  | nil => rfl
  | cons a rs ih =>
    by_cases h : p a = true
    · simp [List.filter_cons, h, List.find?_cons_of_pos _ h]
    · simp only [List.filter_cons, if_neg h, ih]
      rw [List.find?_cons_of_neg _ h]

theorem joinBlock_ne_nil (l : InvRow) (df_meta : List MetaRow) :
    joinBlock l df_meta ≠ [] := by
  unfold joinBlock
  cases h : df_meta.filter (fun m => nameMatches l.name m.name) with
  | nil => simp
  | cons m ms => simp

theorem mem_joinBlock_inv (l : InvRow) (df_meta : List MetaRow) :
    ∀ x ∈ joinBlock l df_meta, x.inv = l := by
  intro x hx
  unfold joinBlock at hx
  cases h : df_meta.filter (fun m => nameMatches l.name m.name) with
  | nil => rw [h] at hx; simp at hx; rw [hx]
  | cons m ms =>
    rw [h] at hx
    rcases List.mem_map.1 hx with ⟨mm, _, hmm⟩
    rw [← hmm]

theorem joinBlock_head? (l : InvRow) (df_meta : List MetaRow) :
    (joinBlock l df_meta).head? = some (firstMatchRow l df_meta) := by
  unfold joinBlock firstMatchRow
  rw [← head?_filter_eq_find? (fun m => nameMatches l.name m.name) df_meta]
  cases h : df_meta.filter (fun m => nameMatches l.name m.name) with
  | nil => simp
  | cons m ms => simp

theorem leftJoin_cons (a : InvRow) (ls : List InvRow) (df_meta : List MetaRow) :
    leftJoin (a :: ls) df_meta = joinBlock a df_meta ++ leftJoin ls df_meta := rfl

theorem normRow_inv (x : SbomRow) : (normRow x).inv = normInvRow x.inv := rfl

theorem joined_find? (df_meta : List MetaRow) (df_store : List InvRow) :
    ∀ r : InvRow,
      (df_store.map (fun x => normCell x.store_path)).Nodup → r ∈ df_store →
      ((leftJoin df_store df_meta).map normRow).find?
          (keyIs (normCell r.store_path)) =
        some (normRow (firstMatchRow r df_meta)) := by
  induction df_store with
  | nil => intro r _ hr; simp at hr
  | cons a rest ih =>
    intro r hnd hr
    rw [leftJoin_cons, List.map_append, List.find?_append]
    simp only [List.map_cons, List.nodup_cons] at hnd
    rcases List.mem_cons.1 hr with rfl | hr
    · -- the head block: its first row already matches the key
      cases hb : joinBlock r df_meta with
      | nil => exact absurd hb (joinBlock_ne_nil r df_meta)
      | cons b bs =>
        have hbinv : b.inv = r := mem_joinBlock_inv r df_meta b (by rw [hb]; exact List.mem_cons_self b bs)
        have hbhead : b = firstMatchRow r df_meta := by
          have := joinBlock_head? r df_meta
          rw [hb] at this
          simpa using this
        simp only [List.map_cons]
        rw [List.find?_cons_of_pos _ (by simp [keyIs, normRow_inv, hbinv, normInvRow])]
        rw [hbhead]
        rfl
    · -- a later row: the head block never carries this row's key
      have hk : normCell a.store_path ≠ normCell r.store_path := by
        intro he
        exact hnd.1 (he ▸ List.mem_map.2 ⟨r, hr, rfl⟩)
      have hnone : ((joinBlock a df_meta).map normRow).find? (keyIs (normCell r.store_path)) = none := by
        rw [List.find?_eq_none]
        intro x hx
        rcases List.mem_map.1 hx with ⟨y, hy, rfl⟩
        have : y.inv = a := mem_joinBlock_inv a df_meta y hy
        simp [keyIs, normRow_inv, this, normInvRow, hk]
      rw [hnone, Option.none_or]
      exact ih r hnd.2 hr

theorem normMetaCols_metaColsOf (m : MetaRow) :
    normMetaCols (metaColsOf m) = metaColsOf m := rfl

theorem firstMatchRow_inv (r : InvRow) (df_meta : List MetaRow) :
    (firstMatchRow r df_meta).inv = r := by
  unfold firstMatchRow
  cases df_meta.find? (fun m => nameMatches r.name m.name) <;> rfl

theorem generate_find?_meta (df_store : List InvRow) (df_meta : List MetaRow)
    (hnd : (df_store.map (fun x => normCell x.store_path)).Nodup) :
    ∀ r ∈ df_store,
      (generate_sbomdb df_store (some df_meta)).find?
          (keyIs (normCell r.store_path)) =
        some (normRow (firstMatchRow r df_meta)) := by
  intro r hr
  show (dropDups [] _).find? _ = _
  rw [dropDups_find? _ _ [] (by simp)]
  exact joined_find? df_meta df_store r hnd hr

/-! ## Claim theorems: merge -/

/-- C1: the canonical set produced by the merge — with or without a metadata
table — has pairwise-distinct `store_path` cells, is an order-preserving
sublist of the normalized merged table, each kept row equals the first row of
that table carrying its `store_path`, and every `store_path` of the table is
represented. -/
theorem merge_dedup_canonical (df_store : List InvRow) (meta : Option (List MetaRow)) :
    ((generate_sbomdb df_store meta).map (fun r => r.inv.store_path)).Nodup
    ∧ List.Sublist (generate_sbomdb df_store meta)
        ((merged_table df_store meta).map normRow)
    ∧ (∀ r ∈ generate_sbomdb df_store meta,
        ((merged_table df_store meta).map normRow).find? (keyIs r.inv.store_path) =
          some r)
    ∧ (∀ x ∈ (merged_table df_store meta).map normRow,
        ∃ r ∈ generate_sbomdb df_store meta,
          r.inv.store_path = x.inv.store_path) := by
  refine ⟨dropDups_keys_nodup _ [], dropDups_sublist _ [], ?_, ?_⟩
  · intro r hr
    exact dropDups_first _ [] r hr
  · intro x hx
    rcases dropDups_covers _ [] x hx with h | h
    · simp at h
    · exact h

theorem merge_dedup_canonical_witness :
    ((merged_table [invW1, invW2] none).map normRow).find?
        (keyIs ({ inv := invW1, meta := none } : SbomRow).inv.store_path) =
      some { inv := invW1, meta := none } :=
  (merge_dedup_canonical [invW1, invW2] none).2.2.1
    { inv := invW1, meta := none } (List.Mem.head _)

/-- The error-aware pipeline agrees with `generate_sbomdb` on every
non-raising run: no metadata table, or a metadata table with at least one
row. -/
theorem generate_sbomdb_checked_some (df_store : List InvRow) :
    generate_sbomdb_checked df_store none =
      some (generate_sbomdb df_store none)
    ∧ ∀ (m : MetaRow) (ms : List MetaRow),
        generate_sbomdb_checked df_store (some (m :: ms)) =
          some (generate_sbomdb df_store (some (m :: ms))) :=
  ⟨rfl, fun _ _ => rfl⟩

/-- C2 counterexample: the empty metadata table — exactly what the loader
yields for the zero-entry catalog `{}` — makes the merge raise, so NO
canonical set is produced and no inventory row appears in one, refuting the
claim's "even when the metadata table is empty". -/
theorem left_join_totality_counterexample :
    parse_json_metadata (.obj []) = some []
    ∧ generate_sbomdb_checked [invW1] (some []) = none :=
  ⟨rfl, rfl⟩

/-- C2 as amended: with the spec's uniqueness invariant on installation
paths, whenever the pipeline produces a canonical set — the metadata table
absent, or supplied with at least one row (so the join key column exists;
matched or unmatched names alike) — every inventory row appears in it at
least once; a supplied metadata table with at least one row always yields a
canonical set; and with no metadata table the canonical set is the
inventory table itself after missing-value normalization. The empty
metadata table instead makes the merge raise (see the counterexample). -/
theorem left_join_totality (df_store : List InvRow)
    (hnd : (df_store.map (fun x => normCell x.store_path)).Nodup) :
    (∀ (meta : Option (List MetaRow)) (canon : List SbomRow),
        generate_sbomdb_checked df_store meta = some canon →
        ∀ r ∈ df_store, ∃ q ∈ canon, q.inv = normInvRow r)
    ∧ (∀ df_meta : List MetaRow, df_meta ≠ [] →
        (generate_sbomdb_checked df_store (some df_meta)).isSome)
    ∧ generate_sbomdb_checked df_store none =
        some (df_store.map (fun r => { inv := normInvRow r, meta := none })) := by
  have hb : generate_sbomdb df_store none =
      df_store.map (fun r => { inv := normInvRow r, meta := none }) := by
    show dropDups [] _ = _
    have hmm : (merged_table df_store none).map normRow =
        df_store.map (fun r => ({ inv := normInvRow r, meta := none } : SbomRow)) := by
      unfold merged_table
      rw [List.map_map]
      rfl
    rw [hmm]
    refine dropDups_eq_self _ [] ?_ (by simp)
    rw [List.map_map]
    exact hnd
  refine ⟨?_, ?_, ?_⟩
  · intro meta canon hcanon r hr
    cases meta with
    | none =>
      obtain rfl : generate_sbomdb df_store none = canon :=
        Option.some.inj hcanon
      refine ⟨{ inv := normInvRow r, meta := none }, ?_, rfl⟩
      rw [hb]
      exact List.mem_map.2 ⟨r, hr, rfl⟩
    | some df_meta =>
      cases df_meta with
      | nil => simp [generate_sbomdb_checked, merge_with_meta] at hcanon
      | cons m ms =>
        obtain rfl : generate_sbomdb df_store (some (m :: ms)) = canon :=
          Option.some.inj hcanon
        refine ⟨normRow (firstMatchRow r (m :: ms)), ?_, ?_⟩
        · exact List.mem_of_find?_eq_some
            (generate_find?_meta df_store (m :: ms) hnd r hr)
        · rw [normRow_inv, firstMatchRow_inv]
  · intro df_meta hne
    cases df_meta with
    | nil => exact absurd rfl hne
    | cons m ms => rfl
  · rw [show generate_sbomdb_checked df_store none =
        some (generate_sbomdb df_store none) from rfl, hb]

theorem left_join_totality_witness :
    generate_sbomdb_checked [invW1] none =
      some ([invW1].map (fun r => { inv := normInvRow r, meta := none })) :=
  (left_join_totality [invW1] (by decide)).2.2

/-- C10: with distinct inventory `store_path` values, the canonical record
kept for an inventory row whose name has several catalog matches carries the
metadata columns of the first matching catalog entry in catalog order. -/
theorem fanout_first_match (df_store : List InvRow) (df_meta : List MetaRow)
    (hnd : (df_store.map (fun x => normCell x.store_path)).Nodup) :
    ∀ r ∈ df_store, ∀ m : MetaRow,
      df_meta.find? (fun mm => nameMatches r.name mm.name) = some m →
      (generate_sbomdb df_store (some df_meta)).find?
          (keyIs (normCell r.store_path)) =
        some { inv := normInvRow r, meta := some (metaColsOf m) } := by
  intro r hr m hm
  rw [generate_find?_meta df_store df_meta hnd r hr]
  unfold firstMatchRow
  rw [hm]
  simp [normRow, normMetaCols_metaColsOf]

theorem fanout_first_match_witness :
    (generate_sbomdb [invW1] (some [metaWA, metaWB])).find?
        (keyIs (normCell invW1.store_path)) =
      some { inv := normInvRow invW1, meta := some (metaColsOf metaWA) } :=
  fanout_first_match [invW1] [metaWA, metaWB] (by decide) invW1
    (List.Mem.head _) metaWA rfl

/-! ## Properties of the projection -/

theorem splitChars_ne_nil (sep : Char) (cs : List Char) :
    splitChars sep cs ≠ [] := by
  induction cs with
  | nil => simp [splitChars]
  | cons c cs ih =>
    by_cases h : c = sep
    · simp [splitChars, h]
    · simp only [splitChars, if_neg h]
      cases hsp : splitChars sep cs with
      | nil => simp
      | cons g gs => simp

theorem pySplit_ne_nil (sep : Char) (s : String) : pySplit sep s ≠ [] := by
  unfold pySplit
  simp [splitChars_ne_nil]

theorem getCol_license_short (r : SbomRow) :
    r.getCol "meta_license_short" =
      r.meta.map (fun m => m.meta_license_short.map CellVal.s) := rfl

theorem add_licenses_meta_none (ri : InvRow) :
    cdx_component_add_licenses { inv := ri, meta := none } = some none := rfl

theorem add_licenses_lic_nan (ri : InvRow) (mc : MetaCols)
    (h : mc.meta_license_short = none) :
    cdx_component_add_licenses { inv := ri, meta := some mc } = none := by
  unfold cdx_component_add_licenses licenses_entry_from_row
  rw [getCol_license_short]
  simp [h]

theorem add_licenses_lic_str (ri : InvRow) (mc : MetaCols) (s : String)
    (h : mc.meta_license_short = some s) :
    cdx_component_add_licenses { inv := ri, meta := some mc } =
      (if s = "" then some none
       else
         some (some ((pySplit ';' s).map (fun seg =>
           { license_type := "name", license_string := seg })))) := by
  unfold cdx_component_add_licenses licenses_entry_from_row
  rw [getCol_license_short]
  simp only [Option.map_some', h]
  by_cases hs : s = ""
  · simp [hs]
  · simp only [if_neg hs]
    cases hsp : pySplit ';' s with
    | nil => exact absurd hsp (pySplit_ne_nil ';' s)
    | cons a l => simp [hs, hsp]

theorem add_licenses_isSome (r : SbomRow)
    (h : ∀ mc, r.meta = some mc → mc.meta_license_short.isSome) :
    (cdx_component_add_licenses r).isSome := by
  obtain ⟨ri, rm⟩ := r
  cases rm with
  | none => simp [add_licenses_meta_none]
  | some mc =>
    obtain ⟨s, hs⟩ := Option.isSome_iff_exists.1 (h mc rfl)
    rw [add_licenses_lic_str ri mc s hs]
    by_cases h0 : s = "" <;> simp [h0]

theorem proj_char (r : SbomRow) (sp pn ver cp : String)
    (h1 : r.inv.store_path = some sp) (h2 : r.inv.pname = some pn)
    (h3 : r.inv.version = some ver) (h4 : r.inv.cpe = some cp)
    (lic : Option (List LicenseEntry))
    (hlic : cdx_component_add_licenses r = some lic) :
    df_row_to_cdx_component r =
      some
        { type := "application", bom_ref := sp, name := pn, version := ver,
          purl := purl_string pn ver, cpe := cp, licenses := lic } := by
  simp [df_row_to_cdx_component, h1, h2, h3, h4, hlic]

theorem proj_some_inv (r : SbomRow) (c : CdxComponent)
    (hc : df_row_to_cdx_component r = some c) :
    ∃ sp pn ver cp lic,
      r.inv.store_path = some sp ∧ r.inv.pname = some pn ∧
      r.inv.version = some ver ∧ r.inv.cpe = some cp ∧
      cdx_component_add_licenses r = some lic ∧
      c = { type := "application", bom_ref := sp, name := pn, version := ver,
            purl := purl_string pn ver, cpe := cp, licenses := lic } := by
  cases hsp : r.inv.store_path with
  | none => simp [df_row_to_cdx_component, hsp] at hc
  | some sp =>
  cases hpn : r.inv.pname with
  | none => simp [df_row_to_cdx_component, hsp, hpn] at hc
  | some pn =>
  cases hver : r.inv.version with
  | none => simp [df_row_to_cdx_component, hsp, hpn, hver] at hc
  | some ver =>
  cases hcp : r.inv.cpe with
  | none => simp [df_row_to_cdx_component, hsp, hpn, hver, hcp] at hc
  | some cp =>
  cases hlic : cdx_component_add_licenses r with
  | none => simp [df_row_to_cdx_component, hsp, hpn, hver, hcp, hlic] at hc
  | some lic =>
    rw [proj_char r sp pn ver cp hsp hpn hver hcp lic hlic] at hc
    exact ⟨sp, pn, ver, cp, lic, rfl, rfl, rfl, rfl, rfl,
      (Option.some.inj hc).symm⟩

theorem normCell_isSome (c : Cell) : (normCell c).isSome := by
  cases c <;> rfl

theorem normJCell_isSome (c : Option Json) : (normJCell c).isSome := by
  cases c <;> rfl

theorem noNanRow_normRow (x : SbomRow) : noNanRow (normRow x) = true := by
  rcases x with ⟨xi, xm⟩
  unfold noNanRow normRow noNanInv normInvRow
  simp only [normCell_isSome, Bool.and_true, Bool.true_and, Bool.and_self]
  cases xm with
  | none => simp
  | some m =>
    simp [noNanMetaCols, normMetaCols, normCell_isSome, normJCell_isSome]

theorem proj_isSome_of_noNan (r : SbomRow) (h : noNanRow r = true) :
    (df_row_to_cdx_component r).isSome := by
  have hinv : noNanInv r.inv = true := by
    unfold noNanRow at h
    exact (Bool.and_eq_true_iff.1 h).1
  have hmc : ∀ mc, r.meta = some mc → mc.meta_license_short.isSome := by
    intro mc hm
    unfold noNanRow at h
    rw [hm] at h
    have := (Bool.and_eq_true_iff.1 h).2
    unfold noNanMetaCols at this
    simp only [Bool.and_eq_true_iff] at this
    exact this.1.1.2
  unfold noNanInv at hinv
  simp only [Bool.and_eq_true_iff, Option.isSome_iff_exists] at hinv
  obtain ⟨⟨⟨⟨⟨sp, hsp⟩, _⟩, ⟨pn, hpn⟩⟩, ⟨ver, hver⟩⟩, ⟨cp, hcp⟩⟩ := hinv
  obtain ⟨lic, hlic⟩ := Option.isSome_iff_exists.1 (add_licenses_isSome r hmc)
  rw [proj_char r sp pn ver cp hsp hpn hver hcp lic hlic]
  rfl

/-! ## Claim theorems: normalization and projection -/

/-- C6: after the merge no cell of a canonical row is a missing value, and
projecting any canonical row succeeds (no projected field can be
null/undefined: every projected field is a string, list, or omitted key
built from these cells). -/
theorem merge_no_nan (df_store : List InvRow) (meta : Option (List MetaRow)) :
    ∀ r ∈ generate_sbomdb df_store meta,
      noNanRow r = true ∧ (df_row_to_cdx_component r).isSome := by
  intro r hr
  have hmem : r ∈ (merged_table df_store meta).map normRow :=
    (dropDups_sublist ((merged_table df_store meta).map normRow) []).subset hr
  rcases List.mem_map.1 hmem with ⟨x, _, rfl⟩
  exact ⟨noNanRow_normRow x, proj_isSome_of_noNan _ (noNanRow_normRow x)⟩

theorem merge_no_nan_witness :
    noNanRow { inv := invW1, meta := none } = true ∧
      (df_row_to_cdx_component { inv := invW1, meta := none }).isSome :=
  merge_no_nan [invW1] none { inv := invW1, meta := none } (List.Mem.head _)

/-- C5: projection fixes the component type, copies the installation path,
short name, version and CPE, and builds the purl as
`pkg:nix/<pname>@<version>` (for `"foo"`/`"1.2.3"`: `pkg:nix/foo@1.2.3`,
see the witness). -/
theorem projection_fields (r : SbomRow) (sp pn ver cp : String)
    (h1 : r.inv.store_path = some sp) (h2 : r.inv.pname = some pn)
    (h3 : r.inv.version = some ver) (h4 : r.inv.cpe = some cp)
    (c : CdxComponent) (hc : df_row_to_cdx_component r = some c) :
    c.type = "application" ∧ c.bom_ref = sp ∧ c.name = pn ∧
      c.version = ver ∧ c.cpe = cp ∧
      c.purl = "pkg:nix/" ++ pn ++ "@" ++ ver := by
  cases hlic : cdx_component_add_licenses r with
  | none => simp [df_row_to_cdx_component, h1, h2, h3, h4, hlic] at hc
  | some lic =>
    rw [proj_char r sp pn ver cp h1 h2 h3 h4 lic hlic] at hc
    obtain rfl := Option.some.inj hc
    exact ⟨rfl, rfl, rfl, rfl, rfl, rfl⟩

theorem projection_fields_witness :
    cdxW5.type = "application" ∧ cdxW5.bom_ref = "sp" ∧ cdxW5.name = "foo" ∧
      cdxW5.version = "1.2.3" ∧ cdxW5.cpe = "" ∧
      cdxW5.purl = "pkg:nix/" ++ "foo" ++ "@" ++ "1.2.3" :=
  projection_fields rowW5 "sp" "foo" "1.2.3" "" rfl rfl rfl rfl cdxW5 rfl

/-- C3 counterexample: a canonical row whose short-license field is `"a;"`
(one non-empty segment, one empty segment — producible by the loader from a
`shortName` containing `;`) is projected with TWO license entries, the
empty segment also producing an entry with an empty name, while the spec's
rule — one entry per NON-EMPTY segment — prescribes exactly one. -/
theorem license_split_counterexample :
    (generate_sbomdb [invW1] (some [metaCexLic])).map
        (fun r => (df_row_to_cdx_component r).map (fun c => c.licenses)) =
      [some (some [{ license_type := "name", license_string := "a" },
                   { license_type := "name", license_string := "" }])]
    ∧ spec_licenses_value "a;" =
        some [{ license_type := "name", license_string := "a" }]
    ∧ (some [({ license_type := "name", license_string := "a" } : LicenseEntry),
             { license_type := "name", license_string := "" }] :
        Option (List LicenseEntry)) ≠ spec_licenses_value "a;" :=
  ⟨rfl, rfl, by decide⟩

/-- C3 as amended: the projected component has no `licenses` key exactly
when the short-license field is absent or empty; when the field is a
non-empty string, the list has one entry `{license: {name: <segment>}}` per
`";"`-split segment — empty segments included, so the code agrees with the
spec's one-entry-per-non-empty-segment rule exactly when no split segment
is empty (in particular, `N` semicolon-joined non-empty segments give `N`
entries) — and an empty list is never emitted (a split is never empty). -/
theorem license_omission_rule (r : SbomRow) (c : CdxComponent)
    (hc : df_row_to_cdx_component r = some c) :
    (r.meta = none → c.licenses = none)
    ∧ (∀ mc, r.meta = some mc → mc.meta_license_short = some "" →
        c.licenses = none)
    ∧ (∀ mc s, r.meta = some mc → mc.meta_license_short = some s → s ≠ "" →
        c.licenses =
          some ((pySplit ';' s).map (fun seg =>
            { license_type := "name", license_string := seg })))
    ∧ (∀ mc s, r.meta = some mc → mc.meta_license_short = some s → s ≠ "" →
        (∀ seg ∈ pySplit ';' s, ¬ seg = "") →
        c.licenses = spec_licenses_value s)
    ∧ c.licenses ≠ some [] := by
  obtain ⟨sp, pn, ver, cp, lic, hsp, hpn, hver, hcp, hlic, rfl⟩ :=
    proj_some_inv r c hc
  obtain ⟨ri, rm⟩ := r
  refine ⟨?_, ?_, ?_, ?_, ?_⟩
  · intro hm
    simp only at hm
    subst hm
    rw [add_licenses_meta_none] at hlic
    simpa using (Option.some.inj hlic).symm
  · intro mc hm hs
    simp only at hm
    subst hm
    rw [add_licenses_lic_str ri mc "" hs] at hlic
    simp only [if_pos rfl] at hlic
    simpa using (Option.some.inj hlic).symm
  · intro mc s hm hs hne
    simp only at hm
    subst hm
    rw [add_licenses_lic_str ri mc s hs, if_neg hne] at hlic
    simpa using (Option.some.inj hlic).symm
  · intro mc s hm hs hne hsegs
    simp only at hm
    subst hm
    rw [add_licenses_lic_str ri mc s hs, if_neg hne] at hlic
    have hlv : lic = some ((pySplit ';' s).map (fun seg =>
        { license_type := "name", license_string := seg })) :=
      (Option.some.inj hlic).symm
    have hfil : (pySplit ';' s).filter (fun seg => ¬ seg = "") =
        pySplit ';' s :=
      List.filter_eq_self.2 (fun a ha => by simpa using hsegs a ha)
    show lic = spec_licenses_value s
    unfold spec_licenses_value
    rw [hfil]
    cases hp : pySplit ';' s with
    | nil => exact absurd hp (pySplit_ne_nil ';' s)
    | cons a l =>
      rw [hp] at hlv
      rw [hlv]
      rfl
  · show lic ≠ some []
    cases rm with
    | none =>
      rw [add_licenses_meta_none] at hlic
      rw [← Option.some.inj hlic]
      simp
    | some mc =>
      cases hcell : mc.meta_license_short with
      | none => rw [add_licenses_lic_nan ri mc hcell] at hlic; exact absurd hlic (by simp)
      | some s =>
        rw [add_licenses_lic_str ri mc s hcell] at hlic
        by_cases h0 : s = ""
        · rw [if_pos h0] at hlic
          rw [← Option.some.inj hlic]
          simp
        · rw [if_neg h0] at hlic
          rw [← Option.some.inj hlic]
          intro hbad
          have hmapnil := Option.some.inj hbad
          have hnn : pySplit ';' s ≠ [] := pySplit_ne_nil ';' s
          cases hsp2 : pySplit ';' s with
          | nil => exact hnn hsp2
          | cons a l => rw [hsp2] at hmapnil; simp at hmapnil

theorem license_omission_rule_witness :
    (cdxW3.licenses =
      some ((pySplit ';' "mit;gpl").map (fun seg =>
        { license_type := "name", license_string := seg })))
    ∧ cdxW3.licenses = spec_licenses_value "mit;gpl" :=
  ⟨(license_omission_rule rowW3 cdxW3 rfl).2.2.1 mcW3 "mit;gpl" rfl rfl
      (by decide),
   (license_omission_rule rowW3 cdxW3 rfl).2.2.2.1 mcW3 "mit;gpl" rfl rfl
      (by decide) (by decide)⟩

/-! ## Properties of the assembler -/

theorem length_filterMap_of_isSome (f : α → Option β) :
    ∀ l : List α, (∀ x ∈ l, (f x).isSome) →
      (l.filterMap f).length = l.length := by
  intro l
  induction l with
  | nil => intro _; rfl
  | cons a rest ih =>
    intro h
    obtain ⟨b, hb⟩ := Option.isSome_iff_exists.1 (h a (List.mem_cons_self a rest))
    rw [List.filterMap_cons, hb, List.length_cons, List.length_cons,
      ih (fun x hx => h x (List.mem_cons_of_mem _ hx))]

theorem to_cdx_rows_spec (target : String) :
    ∀ (rows : List SbomRow) (mc : Option CdxComponent)
      (acc : List CdxComponent),
      (∀ r ∈ rows, (df_row_to_cdx_component r).isSome) →
      to_cdx_rows target rows mc acc =
        some
          ((((rows.filter (isRootRow target)).getLast?).map
              df_row_to_cdx_component).getD mc,
           acc ++ (rows.filter (fun r => ¬ isRootRow target r)).filterMap
              df_row_to_cdx_component) := by
  intro rows
  induction rows with
  | nil => intro mc acc _; simp [to_cdx_rows]
  | cons r rest ih =>
    intro mc acc h
    obtain ⟨c, hc⟩ :=
      Option.isSome_iff_exists.1 (h r (List.mem_cons_self r rest))
    have hrest : ∀ x ∈ rest, (df_row_to_cdx_component x).isSome :=
      fun x hx => h x (List.mem_cons_of_mem _ hx)
    by_cases hroot : isRootRow target r = true
    · rw [show to_cdx_rows target (r :: rest) mc acc =
          to_cdx_rows target rest (some c) acc by
        simp [to_cdx_rows, hc, hroot]]
      rw [ih (some c) acc hrest]
      rw [List.filter_cons_of_pos hroot,
        List.filter_cons_of_neg (by simp [hroot])]
      cases hLast : (rest.filter (isRootRow target)).getLast? with
      | none =>
        have : rest.filter (isRootRow target) = [] :=
          List.getLast?_eq_none_iff.1 hLast
        rw [this]
        simp [hc]
      | some b =>
        have hne : rest.filter (isRootRow target) ≠ [] := by
          intro hnil
          rw [hnil] at hLast
          simp at hLast
        rw [List.getLast?_cons, hLast]
        simp
    · rw [show to_cdx_rows target (r :: rest) mc acc =
          to_cdx_rows target rest mc (acc ++ [c]) by
        simp [to_cdx_rows, hc, hroot]]
      rw [ih mc (acc ++ [c]) hrest]
      rw [List.filter_cons_of_neg (by simp [hroot]),
        List.filter_cons_of_pos (by simp [hroot])]
      rw [List.filterMap_cons, hc, List.append_assoc]
      rfl

/-! ## Claim theorems: assembler -/

/-- C4: when every row projects, the emitted document appends the
projections of all non-root rows, in canonical-set order, to `components`
(one component per non-root row), while `metadata.component` holds the
projection of the last row whose `store_path` equals the target path —
so it is unset when no row matches and reflects only the last match when
several do. -/
theorem root_placement (rows : List SbomRow) (target serial : String)
    (h : ∀ r ∈ rows, (df_row_to_cdx_component r).isSome) :
    to_cdx rows target serial =
      some
        { bomFormat := "CycloneDX", specVersion := "1.3", version := 1,
          serialNumber := "urn:uuid:" ++ serial, tool_vendor := "TII",
          tool_name := "sbomnix", tool_version := "0.1.0",
          metadata_component :=
            (((rows.filter (isRootRow target)).getLast?).map
              df_row_to_cdx_component).getD none,
          components :=
            (rows.filter (fun r => ¬ isRootRow target r)).filterMap
              df_row_to_cdx_component }
    ∧ ((rows.filter (fun r => ¬ isRootRow target r)).filterMap
        df_row_to_cdx_component).length =
      (rows.filter (fun r => ¬ isRootRow target r)).length := by
  constructor
  · unfold to_cdx
    rw [to_cdx_rows_spec target rows none [] h]
    rfl
  · exact length_filterMap_of_isSome _ _
      (fun x hx => h x (List.mem_of_mem_filter hx))

theorem root_placement_witness :
    (to_cdx [rowA, rowB, rowC] "t" "u" =
      some
        { bomFormat := "CycloneDX", specVersion := "1.3", version := 1,
          serialNumber := "urn:uuid:" ++ "u", tool_vendor := "TII",
          tool_name := "sbomnix", tool_version := "0.1.0",
          metadata_component :=
            ((([rowA, rowB, rowC].filter (isRootRow "t")).getLast?).map
              df_row_to_cdx_component).getD none,
          components :=
            ([rowA, rowB, rowC].filter (fun r => ¬ isRootRow "t" r)).filterMap
              df_row_to_cdx_component })
    ∧ (([rowA, rowB, rowC].filter (fun r => ¬ isRootRow "t" r)).filterMap
        df_row_to_cdx_component).length =
      ([rowA, rowB, rowC].filter (fun r => ¬ isRootRow "t" r)).length :=
  root_placement [rowA, rowB, rowC] "t" "u" (by decide)

/-- C9: the merge and the projection are pure functions — two runs on the
same inputs give the same canonical set and the same component — and two
documents assembled from the same canonical set and target under different
serial numbers agree on every field except `serialNumber`. -/
theorem pipeline_deterministic :
    (∀ (df_store : List InvRow) (meta : Option (List MetaRow)),
        generate_sbomdb df_store meta = generate_sbomdb df_store meta)
    ∧ (∀ r : SbomRow, df_row_to_cdx_component r = df_row_to_cdx_component r)
    ∧ (∀ (rows : List SbomRow) (target s1 s2 : String),
        (to_cdx rows target s1).map (fun d => { d with serialNumber := "" }) =
          (to_cdx rows target s2).map
            (fun d => { d with serialNumber := "" })) := by
  refine ⟨fun _ _ => rfl, fun _ => rfl, ?_⟩
  intro rows target s1 s2
  unfold to_cdx
  cases to_cdx_rows target rows none [] <;> rfl

/-! ## Properties of the metadata loader -/

theorem mapOption_length (f : α → Option β) :
    ∀ (l : List α) (res : List β),
      mapOption f l = some res → res.length = l.length := by
  intro l
  induction l with
  | nil =>
    intro res h
    obtain rfl := Option.some.inj h
    rfl
  | cons a rest ih =>
    intro res h
    cases hfa : f a with
    | none => simp [mapOption, hfa] at h
    | some b =>
      cases hml : mapOption f rest with
      | none => simp [mapOption, hfa, hml] at h
      | some bs =>
        simp only [mapOption, hfa, hml] at h
        obtain rfl := Option.some.inj h
        simp [ih bs hml]

theorem mapOption_get (f : α → Option β) :
    ∀ (l : List α) (res : List β), mapOption f l = some res →
      ∀ i (hi : i < l.length) (hr : i < res.length),
        f (l.get ⟨i, hi⟩) = some (res.get ⟨i, hr⟩) := by
  intro l
  induction l with
  | nil => intro res _ i hi _; simp at hi
  | cons a rest ih =>
    intro res h i hi hr
    cases hfa : f a with
    | none => simp [mapOption, hfa] at h
    | some b =>
      cases hml : mapOption f rest with
      | none => simp [mapOption, hfa, hml] at h
      | some bs =>
        simp only [mapOption, hfa, hml] at h
        obtain rfl := Option.some.inj h
        cases i with
        | zero => exact hfa
        | succ n =>
          exact ih bs hml n (Nat.lt_of_succ_lt_succ hi)
            (Nat.lt_of_succ_lt_succ hr)

theorem mapOption_isSome_iff (f : α → Option β) :
    ∀ l : List α, (mapOption f l).isSome ↔ ∀ a ∈ l, (f a).isSome := by
  intro l
  induction l with
  | nil => simp [mapOption]
  | cons a rest ih =>
    constructor
    · intro h x hx
      cases hfa : f a with
      | none => simp [mapOption, hfa] at h
      | some b =>
        cases hml : mapOption f rest with
        | none => simp [mapOption, hfa, hml] at h
        | some bs =>
          rcases List.mem_cons.1 hx with rfl | hx
          · simp [hfa]
          · exact (ih.1 (by simp [hml]) x hx)
    · intro h
      obtain ⟨b, hfa⟩ :=
        Option.isSome_iff_exists.1 (h a (List.mem_cons_self a rest))
      obtain ⟨bs, hml⟩ := Option.isSome_iff_exists.1
        (ih.2 (fun x hx => h x (List.mem_cons_of_mem _ hx)))
      simp [mapOption, hfa, hml]

theorem parse_entry_nixpkgs (nm : String) (pkg : Json) (r : MetaRow)
    (h : parse_entry nm pkg = some r) : r.nixpkgs = nm := by
  unfold parse_entry at h
  split at h
  · simp at h
  · split at h
    · simp at h
    · split at h
      · obtain rfl := Option.some.inj h
        rfl
      · simp at h

theorem parse_entry_obj_char (nm : String) (pf : List (String × Json))
    (r : MetaRow) (h : parse_entry nm (.obj pf) = some r) :
    ∃ mf, (Json.lookupD pf "meta" (.obj [])).asObj = some mf
      ∧ r.nixpkgs = nm
      ∧ r.name = Json.lookupD pf "name" (.str "")
      ∧ r.pname = Json.lookupD pf "pname" (.str "")
      ∧ r.version = Json.lookupD pf "version" (.str "")
      ∧ r.meta_homepage = Json.lookupD mf "homepage" (.str "")
      ∧ r.meta_position = Json.lookupD mf "position" (.str "")
      ∧ joinSemicolon (parse_meta_entry
          (Json.lookupD mf "license" (.obj [])) "shortName") =
          some r.meta_license_short
      ∧ joinSemicolon (parse_meta_entry
          (Json.lookupD mf "license" (.obj [])) "spdxId") =
          some r.meta_license_spdxid
      ∧ joinSemicolon (parse_meta_entry
          (Json.lookupD mf "maintainers" (.obj [])) "email") =
          some r.meta_maintainers_email := by
  unfold parse_entry at h
  split at h
  · rename_i heq
    simp [Json.asObj] at heq
  · rename_i pfields heq
    have hpf : pfields = pf := by
      simpa [Json.asObj] using heq.symm
    subst hpf
    split at h
    · simp at h
    · rename_i mfields heq2
      split at h
      · rename_i ls lx em hls hlx hem
        obtain rfl := Option.some.inj h
        exact ⟨mfields, heq2, rfl, rfl, rfl, rfl, rfl, rfl, hls, hlx, hem⟩
      · simp at h

/-! ## Claim theorems: metadata loader -/

/-- C7: a successful load of a decoded top-level mapping yields exactly one
row per top-level key, in iteration order; each row is the parse of its
entry, where `name`/`pname`/`version` default to `""` when absent and the
license / SPDX / maintainer columns are the `";"`-join of the truthy values
extracted per shape by `parse_meta_entry`. -/
theorem metadata_loader_rows (entries : List (String × Json))
    (rows : List MetaRow)
    (hp : parse_json_metadata (.obj entries) = some rows) :
    rows.length = entries.length
    ∧ rows.map (fun r => r.nixpkgs) = entries.map (fun kv => kv.1)
    ∧ (∀ i (hi : i < entries.length) (hr : i < rows.length),
        parse_entry (entries.get ⟨i, hi⟩).1 (entries.get ⟨i, hi⟩).2 =
          some (rows.get ⟨i, hr⟩))
    ∧ (∀ nm pf r, parse_entry nm (.obj pf) = some r →
        r.nixpkgs = nm
        ∧ r.name = Json.lookupD pf "name" (.str "")
        ∧ r.pname = Json.lookupD pf "pname" (.str "")
        ∧ r.version = Json.lookupD pf "version" (.str "")
        ∧ (∀ mf, (Json.lookupD pf "meta" (.obj [])).asObj = some mf →
            joinSemicolon (parse_meta_entry
                (Json.lookupD mf "license" (.obj [])) "shortName") =
                some r.meta_license_short
            ∧ joinSemicolon (parse_meta_entry
                (Json.lookupD mf "license" (.obj [])) "spdxId") =
                some r.meta_license_spdxid
            ∧ joinSemicolon (parse_meta_entry
                (Json.lookupD mf "maintainers" (.obj [])) "email") =
                some r.meta_maintainers_email)) := by
  have hp' : mapOption (fun kv => parse_entry kv.1 kv.2) entries = some rows := by
    simpa [parse_json_metadata, Json.asObj] using hp
  have hlen : rows.length = entries.length := mapOption_length _ entries rows hp'
  refine ⟨hlen, ?_, ?_, ?_⟩
  · refine List.ext_get (by simp [hlen]) ?_
    intro i h1 h2
    simp only [List.length_map] at h1 h2
    have := mapOption_get _ entries rows hp' i h2 h1
    have hnix := parse_entry_nixpkgs (entries.get ⟨i, h2⟩).1
      (entries.get ⟨i, h2⟩).2 (rows.get ⟨i, h1⟩) this
    simpa using hnix
  · intro i hi hr
    exact mapOption_get _ entries rows hp' i hi hr
  · intro nm pf r hpe
    obtain ⟨mf, hmf, hnix, hname, hpname, hver, _, _, hls, hlx, hem⟩ :=
      parse_entry_obj_char nm pf r hpe
    refine ⟨hnix, hname, hpname, hver, ?_⟩
    intro mf2 hmf2
    rw [hmf2] at hmf
    obtain rfl := Option.some.inj hmf
    exact ⟨hls, hlx, hem⟩

theorem metadata_loader_rows_witness :
    rowsW.length = entriesW.length
    ∧ rowsW.map (fun r => r.nixpkgs) = entriesW.map (fun kv => kv.1) :=
  ⟨(metadata_loader_rows entriesW rowsW rfl).1,
   (metadata_loader_rows entriesW rowsW rfl).2.1⟩

/-- C8 counterexample: `{"a": 5}` is valid JSON whose top level IS a
mapping, yet the loader fails (the entry value `5` is not an object, so
`pkg.get` raises) — refuting "fails exactly when the content is not valid
JSON or the top-level value is not a mapping". -/
theorem metadata_loader_errors_counterexample :
    (Json.obj [("a", .num 5)]).asObj = some [("a", .num 5)]
    ∧ load_json_metadata (.decoded (.obj [("a", .num 5)])) =
        .error .duckTypeError :=
  ⟨rfl, rfl⟩

/-- C8 as amended: IO errors exactly for a missing/unreadable file and a
JSON decode error exactly for undecodable text; the walk over the decoded
value also fails — as an uncaught duck-typing error — when the top level is
not a mapping, and more generally a decoded load succeeds iff every entry
parses (an entry fails when it, or its `meta`, is not an object, or a
license/maintainer extraction yields a truthy non-string); an entry is
never rejected for missing fields: the empty object parses to an
all-defaults row. -/
theorem metadata_loader_errors :
    load_json_metadata .missing = .error .ioError
    ∧ load_json_metadata .invalidJson = .error .jsonDecodeError
    ∧ (∀ j : Json, j.asObj = none →
        load_json_metadata (.decoded j) = .error .duckTypeError)
    ∧ (∀ entries : List (String × Json),
        (parse_json_metadata (.obj entries)).isSome ↔
          ∀ kv ∈ entries, (parse_entry kv.1 kv.2).isSome)
    ∧ (∀ nm : String,
        parse_entry nm (.obj []) =
          some { nixpkgs := nm, name := .str "", pname := .str "",
                 version := .str "", meta_homepage := .str "",
                 meta_position := .str "", meta_license_short := "",
                 meta_license_spdxid := "", meta_maintainers_email := "" }) := by
  refine ⟨rfl, rfl, ?_, ?_, fun nm => rfl⟩
  · intro j hj
    simp [load_json_metadata, parse_json_metadata, hj]
  · intro entries
    unfold parse_json_metadata
    rw [show (Json.obj entries).asObj = some entries from rfl]
    exact mapOption_isSome_iff _ entries

theorem metadata_loader_errors_witness :
    load_json_metadata (.decoded (.arr [])) = .error .duckTypeError :=
  metadata_loader_errors.2.2.1 (.arr []) rfl

/-- The end-to-end example of the spec: a one-row inventory, no metadata
file, target equal to that row's store path — the document carries the row
as `metadata.component` with purl `pkg:nix/foo@1.0`, no `licenses` key, and
an empty `components` array. -/
theorem end_to_end_example :
    to_cdx
      (generate_sbomdb
        [{ store_path := some "/nix/store/aaa-foo-1.0", name := some "foo-1.0",
           pname := some "foo", version := some "1.0", cpe := some "" }] none)
      "/nix/store/aaa-foo-1.0" "u" =
    some
      { bomFormat := "CycloneDX", specVersion := "1.3", version := 1,
        serialNumber := "urn:uuid:u", tool_vendor := "TII",
        tool_name := "sbomnix", tool_version := "0.1.0",
        metadata_component := some
          { type := "application", bom_ref := "/nix/store/aaa-foo-1.0",
            name := "foo", version := "1.0", purl := "pkg:nix/foo@1.0",
            cpe := "", licenses := none },
        components := [] } := rfl
